import Mathlib

/-!
ConvStr: a scoped managed-string to ANSI-buffer conversion.

Verification development for `Infrastructure/BerkeleyDb/BerkeleyDb.Wrapper/ConvStr.cpp`.

The three member functions of `ConvStr` are embedded as state-passing functions over the
object (its single field `chrPtr`) and the unmanaged heap.  The two routines of the
platform's interop service that the source calls, `Marshal::StringToHGlobalAnsi` and
`Marshal::FreeHGlobal`, are not part of the repository; they are modelled below on an
explicit heap with a chronological log of the calls made to them.
-/

/-- An unmanaged address (`char *`, `IntPtr`).  The casts `(char *)`, `(IntPtr)` and
`.ToPointer()` of the source are the identity on addresses. -/
abbrev Ptr := Nat

/-- The null address (`NULL`). -/
abbrev NULL : Ptr := 0

/-- A managed string reference `String^`: `none` is `nullptr`, `some s` a string object whose
characters are the elements of `s` (U+0000 may occur among them). -/
abbrev ManagedString := Option (List Char)

/-- The exceptions the interop routines raise. -/
inductive Exn where
  | OutOfMemoryException
  | EncodingError
  | COMException
  deriving DecidableEq, Repr

/-- The result of a call: normal return with a value, or a raised exception. -/
inductive Completion (α : Type) where
  | returned (v : α)
  | raised (e : Exn)
  deriving DecidableEq, Repr

/-- One call made to the unmanaged allocator or deallocator. -/
inductive Call where
  | StringToHGlobalAnsi (size : Nat) (ret : Option Ptr)
  | FreeHGlobal (p : Ptr)
  deriving DecidableEq, Repr

/-- The unmanaged heap: the live blocks (base address and bytes), the highest address handed
out so far, and the log of allocator and deallocator calls, oldest first. -/
structure Heap where
  live : List (Ptr × List Nat)
  brk : Nat
  calls : List Call
  deriving DecidableEq, Repr

/-- The heap before any allocation. -/
def Heap.empty : Heap := { live := [], brk := 0, calls := [] }

/-- The bytes of the live block whose base address is `p`. -/
def Heap.block (h : Heap) (p : Ptr) : Option (List Nat) :=
  (h.live.find? (fun b => b.1 == p)).map (fun b => b.2)

/-- The null-terminated byte sequence at `p`, read the way native code reads a `char *`:
the bytes of the block from its start up to, and without, the first 0 byte. -/
def Heap.cstr (h : Heap) (p : Ptr) : Option (List Nat) :=
  (h.block p).map (fun bs => bs.takeWhile (fun b => b != 0))

/-- The number of deallocator calls in a log. -/
def freeCount (cs : List Call) : Nat :=
  cs.countP (fun c => match c with | Call.FreeHGlobal _ => true | _ => false)

/-- The number of allocator calls in a log. -/
def allocCount (cs : List Call) : Nat :=
  cs.countP (fun c => match c with | Call.StringToHGlobalAnsi _ _ => true | _ => false)

/-- The target ANSI code page, one byte per character.  `toByte c` is the byte the code
page's conversion writes for `c` when it writes one; `ofByte` decodes a byte.  In every ANSI
code page the byte 0 is U+0000. -/
structure CodePage where
  toByte : Char → Nat
  ofByte : Nat → Char
  ofByte_zero : ofByte 0 = Char.ofNat 0

/-- A character is representable in the code page when decoding its byte gives it back. -/
def CodePage.representable (cp : CodePage) (c : Char) : Bool :=
  cp.ofByte (cp.toByte c) == c

/-- The ANSI encoding of a string: the byte of each character, in order. -/
def CodePage.encode (cp : CodePage) (s : List Char) : List Nat :=
  s.map cp.toByte

/-- Decoding of a byte sequence. -/
def CodePage.decode (cp : CodePage) (bs : List Nat) : List Char :=
  bs.map cp.ofByte

/-- The interop service of the platform (`System::Runtime::InteropServices::Marshal`) as the
source sees it: the ANSI code page in force, the circumstances under which the allocator and
the deallocator fail, and whether the conversion treats a character outside the code page as
a failure (`strict`) or writes the code page's byte for it. -/
structure Marshal where
  codePage : CodePage
  outOfMemory : Heap → Nat → Bool
  freeFails : Heap → Ptr → Bool
  strict : Bool

/-- An encoding failure: the platform is strict and some character of `s` is not
representable in its code page. -/
def Marshal.encodingFails (m : Marshal) (s : List Char) : Bool :=
  m.strict && s.any (fun c => !m.codePage.representable c)

/-- Modelled from the spec: `Marshal::StringToHGlobalAnsi` is a platform routine and its code
is not under src/.  The spec (4.1, 7) has it "allocate an unmanaged buffer sized to hold the
ANSI-encoded bytes of `src` plus a terminating null byte, encode `src` into it", give back
"the resulting address", and raise on "out-of-memory during buffer creation".  The block is
placed at a fresh non-null address.  For a string with a character outside the code page the
spec has the failure raised to the caller (7) and also calls the original's behaviour an open
question (4.1, 9); the routine does not decide it: a strict platform raises `EncodingError`
and leaves no block, any other writes the code page's byte for the character. -/
def Marshal.StringToHGlobalAnsi (m : Marshal) (h : Heap) (s : List Char) :
    Completion Ptr × Heap :=
  let bytes := m.codePage.encode s ++ [0]
  if m.outOfMemory h bytes.length then
    (Completion.raised Exn.OutOfMemoryException,
      { h with calls := h.calls ++ [Call.StringToHGlobalAnsi bytes.length none] })
  else if m.encodingFails s then
    (Completion.raised Exn.EncodingError,
      { h with calls := h.calls ++ [Call.StringToHGlobalAnsi bytes.length none] })
  else
    let p : Ptr := h.brk + 1
    (Completion.returned p,
      { live := (p, bytes) :: h.live
        brk := h.brk + bytes.length
        calls := h.calls ++ [Call.StringToHGlobalAnsi bytes.length (some p)] })

/-- Modelled from the spec: `Marshal::FreeHGlobal` is a platform routine and its code is not
under src/.  The spec (4.1, 9) has it "free the underlying buffer" and allows that "freeing
throws".  Freeing the null address does nothing; freeing an address that is not the base of
a live block raises. -/
def Marshal.FreeHGlobal (m : Marshal) (h : Heap) (p : Ptr) : Completion Unit × Heap :=
  let h1 : Heap := { h with calls := h.calls ++ [Call.FreeHGlobal p] }
  if p = NULL then (Completion.returned (), h1)
  else if m.freeFails h p || (h.block p).isNone then
    (Completion.raised Exn.COMException, h1)
  else
    (Completion.returned (), { h1 with live := h1.live.filter (fun b => b.1 != p) })

/-- The object: its only data member is `chrPtr`. -/
structure ConvStr where
  chrPtr : Ptr
  deriving DecidableEq, Repr

/-- The state after a member function has run: how it completed, the object, the heap. -/
structure After (α : Type) where
  completion : Completion α
  self : ConvStr
  heap : Heap

/-- The constructor `ConvStr::ConvStr(String^ src)`.  It has no handler and no check of its
own: when the platform routine raises, the exception leaves the constructor and no object
exists. -/
def ConvStr.ctor (m : Marshal) (src : ManagedString) (h : Heap) :
    Completion ConvStr × Heap :=
  match src with
  | some s =>
    -- chrPtr = (char *) Marshal::StringToHGlobalAnsi(src).ToPointer();
    match m.StringToHGlobalAnsi h s with
    | (Completion.returned p, h1) => (Completion.returned { chrPtr := p }, h1)
    | (Completion.raised e, h1) => (Completion.raised e, h1)
  | none =>
    -- chrPtr = NULL;
    (Completion.returned { chrPtr := NULL }, h)

/-- The destructor `ConvStr::~ConvStr()`.  The `try` block has a `finally` handler and no
`catch`: the handler runs on both exits of the block, and an exception raised in the block
goes on to the caller afterwards. -/
def ConvStr.dtor (m : Marshal) (self : ConvStr) (h : Heap) : After Unit :=
  if self.chrPtr ≠ NULL then
    -- try { Marshal::FreeHGlobal((IntPtr)chrPtr); }
    let r := m.FreeHGlobal h self.chrPtr
    -- finally { chrPtr = NULL; }
    { completion := r.1, self := { self with chrPtr := NULL }, heap := r.2 }
  else
    { completion := Completion.returned (), self := self, heap := h }

/-- The accessor `char * ConvStr::Str()`: it returns `chrPtr` and writes nothing. -/
def ConvStr.Str (self : ConvStr) (h : Heap) : After Ptr :=
  { completion := Completion.returned self.chrPtr, self := self, heap := h }

/-- An operation a caller applies to a constructed object. -/
inductive Op where
  | Str
  | release
  deriving DecidableEq, Repr

/-- One operation on the object; the caller goes on whether or not it raised. -/
def Op.apply (m : Marshal) (op : Op) (st : ConvStr × Heap) : ConvStr × Heap :=
  match op with
  | Op.Str => let r := st.1.Str st.2; (r.self, r.heap)
  | Op.release => let r := st.1.dtor m st.2; (r.self, r.heap)

/-- A sequence of operations, applied left to right. -/
def runOps (m : Marshal) (ops : List Op) (st : ConvStr × Heap) : ConvStr × Heap :=
  ops.foldl (fun acc op => op.apply m acc) st

/-- The 7-bit code page: characters below U+0080 are their own byte, every other character
is written as the default character `?`. -/
def ascii : CodePage :=
  { toByte := fun c => if c.toNat < 128 then c.toNat else 63
    ofByte := fun b => Char.ofNat b
    ofByte_zero := rfl }

/-- A platform on which neither routine fails. -/
def sound : Marshal :=
  { codePage := ascii, outOfMemory := fun _ _ => false, freeFails := fun _ _ => false,
    strict := false }

/-- A platform whose deallocator fails. -/
def faulty : Marshal :=
  { codePage := ascii, outOfMemory := fun _ _ => false, freeFails := fun _ _ => true,
    strict := false }

theorem encodingFails_eq_false (m : Marshal) (s : List Char)
    (henc : m.strict = true → ∀ c ∈ s, m.codePage.representable c = true) :
    m.encodingFails s = false := by
  cases hs : m.strict with
  | false => simp [Marshal.encodingFails, hs]
  | true =>
    have hall := henc hs
    simp only [Marshal.encodingFails, hs, Bool.true_and]
    rw [Bool.eq_false_iff]
    intro hany
    obtain ⟨c, hc, hcr⟩ := List.any_eq_true.mp hany
    rw [hall c hc] at hcr
    exact absurd hcr (by decide)

theorem StringToHGlobalAnsi_ok (m : Marshal) (h : Heap) (s : List Char)
    (hmem : m.outOfMemory h (s.length + 1) = false)
    (henc : m.encodingFails s = false) :
    m.StringToHGlobalAnsi h s =
      (Completion.returned (h.brk + 1),
        { live := (h.brk + 1, m.codePage.encode s ++ [0]) :: h.live
          brk := h.brk + (s.length + 1)
          calls := h.calls ++ [Call.StringToHGlobalAnsi (s.length + 1) (some (h.brk + 1))] }) := by
  simp [Marshal.StringToHGlobalAnsi, CodePage.encode, hmem, henc]

theorem StringToHGlobalAnsi_enc (m : Marshal) (h : Heap) (s : List Char)
    (hmem : m.outOfMemory h (s.length + 1) = false)
    (henc : m.encodingFails s = true) :
    m.StringToHGlobalAnsi h s =
      (Completion.raised Exn.EncodingError,
        { h with calls := h.calls ++ [Call.StringToHGlobalAnsi (s.length + 1) none] }) := by
  simp [Marshal.StringToHGlobalAnsi, CodePage.encode, hmem, henc]

theorem StringToHGlobalAnsi_oom (m : Marshal) (h : Heap) (s : List Char)
    (hmem : m.outOfMemory h (s.length + 1) = true) :
    m.StringToHGlobalAnsi h s =
      (Completion.raised Exn.OutOfMemoryException,
        { h with calls := h.calls ++ [Call.StringToHGlobalAnsi (s.length + 1) none] }) := by
  simp [Marshal.StringToHGlobalAnsi, CodePage.encode, hmem]

theorem ctor_ok (m : Marshal) (h : Heap) (s : List Char)
    (hmem : m.outOfMemory h (s.length + 1) = false)
    (henc : m.encodingFails s = false) :
    ConvStr.ctor m (some s) h =
      (Completion.returned { chrPtr := h.brk + 1 },
        { live := (h.brk + 1, m.codePage.encode s ++ [0]) :: h.live
          brk := h.brk + (s.length + 1)
          calls := h.calls ++ [Call.StringToHGlobalAnsi (s.length + 1) (some (h.brk + 1))] }) := by
  simp [ConvStr.ctor, StringToHGlobalAnsi_ok m h s hmem henc]

theorem ctor_enc (m : Marshal) (h : Heap) (s : List Char)
    (hmem : m.outOfMemory h (s.length + 1) = false)
    (henc : m.encodingFails s = true) :
    ConvStr.ctor m (some s) h =
      (Completion.raised Exn.EncodingError,
        { h with calls := h.calls ++ [Call.StringToHGlobalAnsi (s.length + 1) none] }) := by
  simp [ConvStr.ctor, StringToHGlobalAnsi_enc m h s hmem henc]

theorem ctor_oom (m : Marshal) (h : Heap) (s : List Char)
    (hmem : m.outOfMemory h (s.length + 1) = true) :
    ConvStr.ctor m (some s) h =
      (Completion.raised Exn.OutOfMemoryException,
        { h with calls := h.calls ++ [Call.StringToHGlobalAnsi (s.length + 1) none] }) := by
  simp [ConvStr.ctor, StringToHGlobalAnsi_oom m h s hmem]

/-- A constructor run that returned an object: the platform routine did not fail, and the
object and heap are the ones the routine produced. -/
theorem ctor_returned (m : Marshal) (h : Heap) (s : List Char) (obj : ConvStr) (h1 : Heap)
    (hctor : ConvStr.ctor m (some s) h = (Completion.returned obj, h1)) :
    m.outOfMemory h (s.length + 1) = false ∧ m.encodingFails s = false ∧
      obj = { chrPtr := h.brk + 1 } ∧
      h1 = { live := (h.brk + 1, m.codePage.encode s ++ [0]) :: h.live
             brk := h.brk + (s.length + 1)
             calls := h.calls ++
               [Call.StringToHGlobalAnsi (s.length + 1) (some (h.brk + 1))] } := by
  cases hmem : m.outOfMemory h (s.length + 1) with
  | true =>
    rw [ctor_oom m h s hmem] at hctor
    exact absurd (Prod.mk.inj hctor).1 (by simp)
  | false =>
    cases henc : m.encodingFails s with
    | true =>
      rw [ctor_enc m h s hmem henc] at hctor
      exact absurd (Prod.mk.inj hctor).1 (by simp)
    | false =>
      rw [ctor_ok m h s hmem henc] at hctor
      obtain ⟨hobj, hh⟩ := Prod.mk.inj hctor
      exact ⟨rfl, rfl, (Completion.returned.inj hobj).symm, hh.symm⟩

theorem FreeHGlobal_calls (m : Marshal) (h : Heap) (p : Ptr) :
    (m.FreeHGlobal h p).2.calls = h.calls ++ [Call.FreeHGlobal p] := by
  unfold Marshal.FreeHGlobal
  split_ifs <;> rfl

theorem dtor_null (m : Marshal) (s : ConvStr) (h : Heap) (hp : s.chrPtr = NULL) :
    ConvStr.dtor m s h = { completion := Completion.returned (), self := s, heap := h } := by
  simp [ConvStr.dtor, hp]

theorem dtor_nonnull (m : Marshal) (s : ConvStr) (h : Heap) (hp : s.chrPtr ≠ NULL) :
    ConvStr.dtor m s h =
      { completion := (m.FreeHGlobal h s.chrPtr).1, self := { chrPtr := NULL },
        heap := (m.FreeHGlobal h s.chrPtr).2 } := by
  simp [ConvStr.dtor, hp]

theorem dtor_self (m : Marshal) (s : ConvStr) (h : Heap) :
    (ConvStr.dtor m s h).self = { chrPtr := NULL } := by
  by_cases hp : s.chrPtr = NULL
  · rw [dtor_null m s h hp]
    cases s
    simp_all
  · rw [dtor_nonnull m s h hp]

/-- Operations on an object whose pointer is already null change nothing. -/
theorem runOps_null (m : Marshal) (ops : List Op) (h : Heap) :
    runOps m ops ({ chrPtr := NULL }, h) = ({ chrPtr := NULL }, h) := by
  induction ops with
  | nil => rfl
  | cons op rest ih =>
    cases op
    · simpa [runOps, Op.apply, ConvStr.Str] using ih
    · simpa [runOps, Op.apply, ConvStr.dtor] using ih

/-- Operations on an object with a live pointer: up to the first release nothing changes,
the first release makes the one deallocator call, and nothing changes afterwards. -/
theorem runOps_calls (m : Marshal) (ops : List Op) (s : ConvStr) (h : Heap)
    (hp : s.chrPtr ≠ NULL) (hk : Op.release ∈ ops) :
    (runOps m ops (s, h)).1 = { chrPtr := NULL } ∧
      (runOps m ops (s, h)).2.calls = h.calls ++ [Call.FreeHGlobal s.chrPtr] := by
  induction ops with
  | nil => simp at hk
  | cons op rest ih =>
    cases op
    · have hk1 : Op.release ∈ rest := by simpa using hk
      have := ih hk1
      simpa [runOps, Op.apply, ConvStr.Str] using this
    · have hstep : runOps m (Op.release :: rest) (s, h)
          = runOps m rest ({ chrPtr := NULL }, (m.FreeHGlobal h s.chrPtr).2) := by
        simp [runOps, Op.apply, dtor_nonnull m s h hp]
      rw [hstep, runOps_null]
      exact ⟨rfl, FreeHGlobal_calls m h s.chrPtr⟩

/-- Reading a null-terminated sequence out of bytes none of which is 0, followed by a 0. -/
theorem takeWhile_terminated (bs : List Nat) (hz : ∀ b ∈ bs, b ≠ 0) (rest : List Nat) :
    (bs ++ 0 :: rest).takeWhile (fun b => b != 0) = bs := by
  induction bs with
  | nil => simp
  | cons b tl ih =>
    have hb : b ≠ 0 := hz b (by simp)
    have htl : ∀ x ∈ tl, x ≠ 0 := fun x hx => hz x (by simp [hx])
    simp [List.takeWhile_cons, hb, ih htl]

/-! Construction -/

/-- C1. For a present string `s`, when the platform routine does not fail (the allocation
succeeds and, where the platform is strict, every character is representable), `ConvStr(s)`
returns an object whose `Str()` is a non-null address, and the block at that address holds
the ANSI encoding of `s` followed by one 0 byte (so it is null-terminated).  On a platform
that is not strict this is every present string for which the allocation succeeds. -/
theorem ctor_present_buffer (m : Marshal) (h : Heap) (s : List Char)
    (hmem : m.outOfMemory h (s.length + 1) = false)
    (henc : m.strict = true → ∀ c ∈ s, m.codePage.representable c = true) :
    ∃ obj h1, ConvStr.ctor m (some s) h = (Completion.returned obj, h1) ∧
      (obj.Str h1).completion = Completion.returned obj.chrPtr ∧
      obj.chrPtr ≠ NULL ∧
      h1.block obj.chrPtr = some (m.codePage.encode s ++ [0]) ∧
      (m.codePage.encode s ++ [0]).getLast? = some 0 := by
  refine ⟨_, _, ctor_ok m h s hmem (encodingFails_eq_false m s henc), rfl, ?_, ?_, ?_⟩
  · simp
  · simp [Heap.block]
  · simp

/-- C1 at the input "hello": the buffer holds exactly the bytes h, e, l, l, o, 0. -/
theorem ctor_present_buffer_witness :
    (sound.outOfMemory Heap.empty (['h', 'e', 'l', 'l', 'o'].length + 1) = false ∧
      (sound.strict = true →
        ∀ c ∈ ['h', 'e', 'l', 'l', 'o'], sound.codePage.representable c = true)) ∧
    ∃ obj h1, ConvStr.ctor sound (some ['h', 'e', 'l', 'l', 'o']) Heap.empty
        = (Completion.returned obj, h1) ∧
      (obj.Str h1).completion = Completion.returned obj.chrPtr ∧
      obj.chrPtr ≠ NULL ∧
      h1.block obj.chrPtr = some [104, 101, 108, 108, 111, 0] ∧
      ([104, 101, 108, 108, 111, 0] : List Nat).getLast? = some 0 :=
  ⟨⟨rfl, by decide⟩,
   ctor_present_buffer sound Heap.empty ['h', 'e', 'l', 'l', 'o'] rfl (by decide)⟩

/-- C2. For the null reference, `ConvStr(nullptr)` returns an object and leaves the whole
heap, the log of allocator calls included, as it was; `Str()` then returns `NULL`. -/
theorem ctor_absent (m : Marshal) (h : Heap) :
    ConvStr.ctor m none h = (Completion.returned { chrPtr := NULL }, h) ∧
      (ConvStr.ctor m none h).2.calls = h.calls ∧
      allocCount (ConvStr.ctor m none h).2.calls = allocCount h.calls ∧
      (ConvStr.Str { chrPtr := NULL } h).completion = Completion.returned NULL :=
  ⟨rfl, rfl, rfl, rfl⟩

/-! Release -/

/-- C3. Release is idempotent.  For every object state and heap, a second `~ConvStr` after a
first one returns normally, leaves the object and the whole heap as the first one left them,
and adds no deallocator call to the log. -/
theorem dtor_idempotent (m : Marshal) (s : ConvStr) (h : Heap) :
    (ConvStr.dtor m (ConvStr.dtor m s h).self (ConvStr.dtor m s h).heap).self
        = (ConvStr.dtor m s h).self ∧
      (ConvStr.dtor m (ConvStr.dtor m s h).self (ConvStr.dtor m s h).heap).heap
        = (ConvStr.dtor m s h).heap ∧
      (ConvStr.dtor m (ConvStr.dtor m s h).self (ConvStr.dtor m s h).heap).completion
        = Completion.returned () ∧
      freeCount (ConvStr.dtor m (ConvStr.dtor m s h).self (ConvStr.dtor m s h).heap).heap.calls
        = freeCount (ConvStr.dtor m s h).heap.calls := by
  rw [dtor_self m s h, dtor_null m _ _ rfl]
  exact ⟨rfl, rfl, rfl, rfl⟩

/-- C4. After `~ConvStr` the pointer field is `NULL`, whatever the state it ran in and however
the deallocator completed, by a normal return or by raising, and `Str()` on the released
object returns `NULL`. -/
theorem dtor_nulls_pointer (m : Marshal) (s : ConvStr) (h : Heap) :
    (ConvStr.dtor m s h).self.chrPtr = NULL ∧
      ((ConvStr.dtor m s h).self.Str (ConvStr.dtor m s h).heap).completion
        = Completion.returned NULL := by
  have hs := dtor_self m s h
  exact ⟨by rw [hs], by simp [ConvStr.Str, hs]⟩

/-- C4 on both exits: a release whose deallocator raises and one whose deallocator returns. -/
theorem dtor_nulls_pointer_witness :
    ((ConvStr.dtor faulty { chrPtr := 1 }
        (ConvStr.ctor sound (some ['h', 'i']) Heap.empty).2).completion
        = Completion.raised Exn.COMException ∧
      (ConvStr.dtor faulty { chrPtr := 1 }
        (ConvStr.ctor sound (some ['h', 'i']) Heap.empty).2).self.chrPtr = NULL) ∧
    ((ConvStr.dtor sound { chrPtr := 1 }
        (ConvStr.ctor sound (some ['h', 'i']) Heap.empty).2).completion
        = Completion.returned () ∧
      (ConvStr.dtor sound { chrPtr := 1 }
        (ConvStr.ctor sound (some ['h', 'i']) Heap.empty).2).self.chrPtr = NULL) :=
  ⟨⟨by decide, (dtor_nulls_pointer faulty { chrPtr := 1 }
      (ConvStr.ctor sound (some ['h', 'i']) Heap.empty).2).1⟩,
   ⟨by decide, (dtor_nulls_pointer sound { chrPtr := 1 }
      (ConvStr.ctor sound (some ['h', 'i']) Heap.empty).2).1⟩⟩

/-- C5, refuted as stated.  An object is built from "hello"; on a platform whose deallocator
fails, `~ConvStr` does not return normally: it completes by raising the deallocator's
exception, after having set the pointer to `NULL`. -/
theorem dtor_suppresses_counterexample :
    (ConvStr.ctor sound (some ['h', 'e', 'l', 'l', 'o']) Heap.empty).1
        = Completion.returned { chrPtr := 1 } ∧
      (faulty.FreeHGlobal (ConvStr.ctor sound (some ['h', 'e', 'l', 'l', 'o']) Heap.empty).2 1).1
        = Completion.raised Exn.COMException ∧
      (ConvStr.dtor faulty { chrPtr := 1 }
        (ConvStr.ctor sound (some ['h', 'e', 'l', 'l', 'o']) Heap.empty).2).completion
        = Completion.raised Exn.COMException ∧
      (ConvStr.dtor faulty { chrPtr := 1 }
        (ConvStr.ctor sound (some ['h', 'e', 'l', 'l', 'o']) Heap.empty).2).completion
        ≠ Completion.returned () := by
  decide

/-- C5, amended.  For every object state with a non-null pointer whose free step raises `e`,
`~ConvStr` sets the pointer to `NULL` and then completes by raising that same `e`: the
`finally` handler does not catch. -/
theorem dtor_propagates (m : Marshal) (s : ConvStr) (h : Heap) (e : Exn)
    (hp : s.chrPtr ≠ NULL)
    (hfree : (m.FreeHGlobal h s.chrPtr).1 = Completion.raised e) :
    (ConvStr.dtor m s h).completion = Completion.raised e ∧
      (ConvStr.dtor m s h).self.chrPtr = NULL := by
  rw [dtor_nonnull m s h hp]
  exact ⟨hfree, rfl⟩

/-- C5, amended, at an object built from "hi" and released on a failing deallocator. -/
theorem dtor_propagates_witness :
    (({ chrPtr := 1 } : ConvStr).chrPtr ≠ NULL ∧
      (faulty.FreeHGlobal (ConvStr.ctor sound (some ['h', 'i']) Heap.empty).2 1).1
        = Completion.raised Exn.COMException) ∧
    ((ConvStr.dtor faulty { chrPtr := 1 }
        (ConvStr.ctor sound (some ['h', 'i']) Heap.empty).2).completion
        = Completion.raised Exn.COMException ∧
      (ConvStr.dtor faulty { chrPtr := 1 }
        (ConvStr.ctor sound (some ['h', 'i']) Heap.empty).2).self.chrPtr = NULL) :=
  ⟨⟨by decide, by decide⟩,
   dtor_propagates faulty { chrPtr := 1 } (ConvStr.ctor sound (some ['h', 'i']) Heap.empty).2
     Exn.COMException (by decide) (by decide)⟩

/-! The accessor -/

/-- C7. `Str()` is a pure read: it returns the stored pointer and leaves the object and the
heap exactly as they were, so a second call returns the same address. -/
theorem Str_pure (s : ConvStr) (h : Heap) :
    (s.Str h).completion = Completion.returned s.chrPtr ∧
      (s.Str h).self = s ∧
      (s.Str h).heap = h ∧
      ((s.Str h).self.Str (s.Str h).heap).completion = (s.Str h).completion :=
  ⟨rfl, rfl, rfl, rfl⟩

/-! The whole lifecycle -/

/-- C6. Exactly-once free.  After a construction that returned, any sequence of `Str()` calls
and releases with at least one release adds to the log: nothing when `src` is the null
reference; when `src` is present, the one allocator call of the construction followed by one
deallocator call on the address the construction stored.  Hence the deallocator is called
once for a present `src` and never for the null reference, and the allocator at most once. -/
theorem lifecycle_free_once (m : Marshal) (src : ManagedString) (ops : List Op) (h : Heap)
    (obj : ConvStr) (h1 : Heap)
    (hctor : ConvStr.ctor m src h = (Completion.returned obj, h1))
    (hk : Op.release ∈ ops) :
    (runOps m ops (obj, h1)).2.calls = h.calls ++
        (match src with
         | none => []
         | some s => [Call.StringToHGlobalAnsi (s.length + 1) (some obj.chrPtr),
                      Call.FreeHGlobal obj.chrPtr]) ∧
      freeCount (runOps m ops (obj, h1)).2.calls
        = freeCount h.calls + (if src.isSome then 1 else 0) ∧
      allocCount (runOps m ops (obj, h1)).2.calls
        = allocCount h.calls + (if src.isSome then 1 else 0) ∧
      allocCount (runOps m ops (obj, h1)).2.calls = allocCount h1.calls := by
  cases src with
  | none =>
    have hc : ConvStr.ctor m none h = (Completion.returned { chrPtr := NULL }, h) := rfl
    rw [hc] at hctor
    obtain ⟨hobj, hh⟩ := Prod.mk.inj hctor
    have hobj1 : obj = { chrPtr := NULL } := (Completion.returned.inj hobj).symm
    subst hobj1
    subst hh
    rw [runOps_null]
    simp
  | some s =>
    obtain ⟨-, -, hobj, hh⟩ := ctor_returned m h s obj h1 hctor
    subst hobj
    subst hh
    have hp : ({ chrPtr := h.brk + 1 } : ConvStr).chrPtr ≠ NULL := by simp
    rw [(runOps_calls m ops _ _ hp hk).2]
    simp [freeCount, allocCount, List.countP_cons, List.countP_append]

/-- C6 on the sequence Str, release, Str, release after a construction from "hi". -/
theorem lifecycle_free_once_witness :
    (ConvStr.ctor sound (some ['h', 'i']) Heap.empty
        = (Completion.returned { chrPtr := 1 },
            (ConvStr.ctor sound (some ['h', 'i']) Heap.empty).2) ∧
      Op.release ∈ [Op.Str, Op.release, Op.Str, Op.release]) ∧
    (runOps sound [Op.Str, Op.release, Op.Str, Op.release]
        ({ chrPtr := 1 }, (ConvStr.ctor sound (some ['h', 'i']) Heap.empty).2)).2.calls
      = [Call.StringToHGlobalAnsi 3 (some 1), Call.FreeHGlobal 1] :=
  ⟨⟨by decide, by decide⟩,
   (lifecycle_free_once sound (some ['h', 'i']) [Op.Str, Op.release, Op.Str, Op.release]
      Heap.empty { chrPtr := 1 } (ConvStr.ctor sound (some ['h', 'i']) Heap.empty).2
      (by decide) (by decide)).1⟩

/-! Round trip and failure of construction -/

/-- C8, refuted as stated.  Every character of the string a, U+0000, b is representable in
the 7-bit code page, the construction returns, yet the null-terminated sequence at `Str()`
is the single byte of `a` and decoding it yields the string a, not the input. -/
theorem roundtrip_counterexample :
    (['a', Char.ofNat 0, 'b'].all ascii.representable = true) ∧
      (ConvStr.ctor sound (some ['a', Char.ofNat 0, 'b']) Heap.empty).1
        = Completion.returned { chrPtr := 1 } ∧
      (ConvStr.ctor sound (some ['a', Char.ofNat 0, 'b']) Heap.empty).2.block 1
        = some [97, 0, 98, 0] ∧
      ((ConvStr.ctor sound (some ['a', Char.ofNat 0, 'b']) Heap.empty).2.cstr 1).map
          sound.codePage.decode = some ['a'] ∧
      ((ConvStr.ctor sound (some ['a', Char.ofNat 0, 'b']) Heap.empty).2.cstr 1).map
          sound.codePage.decode ≠ some ['a', Char.ofNat 0, 'b'] := by
  decide

/-- C8, amended.  For every string all of whose characters are representable in the code page
and none of which is U+0000, when the allocation does not fail, the construction returns and
decoding the null-terminated byte sequence at `Str()` yields exactly the string. -/
theorem roundtrip (m : Marshal) (h : Heap) (s : List Char)
    (hmem : m.outOfMemory h (s.length + 1) = false)
    (hrep : ∀ c ∈ s, m.codePage.representable c = true)
    (hnul : ∀ c ∈ s, c ≠ Char.ofNat 0) :
    ∃ obj h1, ConvStr.ctor m (some s) h = (Completion.returned obj, h1) ∧
      (obj.Str h1).completion = Completion.returned obj.chrPtr ∧
      (h1.cstr obj.chrPtr).map m.codePage.decode = some s := by
  refine ⟨_, _, ctor_ok m h s hmem (encodingFails_eq_false m s (fun _ => hrep)), rfl, ?_⟩
  have hz : ∀ b ∈ m.codePage.encode s, b ≠ 0 := by
    intro b hb hb0
    obtain ⟨c, hc, hcb⟩ := List.mem_map.mp hb
    have h1 := hrep c hc
    simp only [CodePage.representable, beq_iff_eq] at h1
    rw [hcb, hb0, m.codePage.ofByte_zero] at h1
    exact hnul c hc h1.symm
  have hdec : m.codePage.decode (m.codePage.encode s) = s := by
    simp only [CodePage.decode, CodePage.encode, List.map_map]
    conv_rhs => rw [← List.map_id s]
    apply List.map_congr_left
    intro c hc
    have h1 := hrep c hc
    simpa [CodePage.representable] using h1
  simp [Heap.cstr, Heap.block, takeWhile_terminated _ hz [], hdec]

/-- C8, amended, at the string "hi". -/
theorem roundtrip_witness :
    (sound.outOfMemory Heap.empty (['h', 'i'].length + 1) = false ∧
      (∀ c ∈ ['h', 'i'], sound.codePage.representable c = true) ∧
      (∀ c ∈ ['h', 'i'], c ≠ Char.ofNat 0)) ∧
    ∃ obj h1, ConvStr.ctor sound (some ['h', 'i']) Heap.empty = (Completion.returned obj, h1) ∧
      (obj.Str h1).completion = Completion.returned obj.chrPtr ∧
      (h1.cstr obj.chrPtr).map sound.codePage.decode = some ['h', 'i'] :=
  ⟨⟨rfl, by decide, by decide⟩,
   roundtrip sound Heap.empty ['h', 'i'] rfl (by decide) (by decide)⟩

/-- C10. After a construction that returned, `Str()` returns `NULL` exactly when `src` was
the null reference.  For the present empty string the construction made one allocation, and
`Str()` is a non-null address of a block whose first and only byte is 0. -/
theorem null_iff_absent (m : Marshal) (src : ManagedString) (h : Heap)
    (obj : ConvStr) (h1 : Heap)
    (hctor : ConvStr.ctor m src h = (Completion.returned obj, h1)) :
    ((obj.Str h1).completion = Completion.returned NULL ↔ src = none) ∧
      (src = some [] →
        obj.chrPtr ≠ NULL ∧ h1.block obj.chrPtr = some [0] ∧
        (h1.block obj.chrPtr).bind List.head? = some 0 ∧
        h1.calls = h.calls ++ [Call.StringToHGlobalAnsi 1 (some obj.chrPtr)]) := by
  cases src with
  | none =>
    have hc : ConvStr.ctor m none h = (Completion.returned { chrPtr := NULL }, h) := rfl
    rw [hc] at hctor
    obtain ⟨hobj, -⟩ := Prod.mk.inj hctor
    have hobj1 := Completion.returned.inj hobj
    rw [← hobj1]
    simp [ConvStr.Str]
  | some s =>
    obtain ⟨-, -, hobj, hh⟩ := ctor_returned m h s obj h1 hctor
    rw [hobj, hh]
    refine ⟨by simp [ConvStr.Str], fun hs => ?_⟩
    have hs1 : s = [] := by simpa using hs
    subst hs1
    simp [Heap.block, CodePage.encode]

/-- C10 at the present empty string. -/
theorem null_iff_absent_witness :
    ConvStr.ctor sound (some []) Heap.empty
        = (Completion.returned { chrPtr := 1 }, (ConvStr.ctor sound (some []) Heap.empty).2) ∧
      ((({ chrPtr := 1 } : ConvStr).Str (ConvStr.ctor sound (some []) Heap.empty).2).completion
          = Completion.returned NULL ↔ (some [] : ManagedString) = none) ∧
      (ConvStr.ctor sound (some []) Heap.empty).2.block 1 = some [0] :=
  ⟨by decide,
   (null_iff_absent sound (some []) Heap.empty { chrPtr := 1 }
      (ConvStr.ctor sound (some []) Heap.empty).2 (by decide)).1,
   ((null_iff_absent sound (some []) Heap.empty { chrPtr := 1 }
      (ConvStr.ctor sound (some []) Heap.empty).2 (by decide)).2 rfl).2.1⟩
